import Mathlib

/-!
Verification of the Anevo note-sharing backend (`src/backend`).

The development shallowly embeds the backend's data model and handlers:

* the tag codec: notes persist their tag list as a JSON-encoded string
  (`json.dumps` on write, `json.loads` with an empty-list fallback on read);
  strings are modelled as lists of Unicode code points (`List Nat`), and the
  codec mirrors CPython's `json` module restricted to arrays of strings —
  `ensure_ascii` escaping (including surrogate pairs) on encode, the strict
  `scanstring`/`JSONArray` grammar on decode;
* the SQLAlchemy rows (`models.py`) as records, the database session as an
  explicit `DBState`, `query(...).filter(...).first()` as `List.find?`;
* the handlers of `routers/notes.py`, `routers/auth.py`, `main.py` and
  `routers/share.py` as state-passing functions returning
  `Except ApiError _ × DBState`, with `HTTPException(status, detail)`
  embedded as `ApiError.http` and Python `AttributeError` (raised by the
  `share.py` variant, which reads ORM attributes the model does not define)
  as `ApiError.attributeError`.
-/

/-! ### Tag codec: CPython `json.dumps` for a list of strings (`ensure_ascii`) -/

/-- Lowercase hex digit code point of `n < 16`, as in CPython's `'\\u%04x'`. -/
def hexDigitChar (n : Nat) : Nat :=
  if n < 10 then 0x30 + n else 0x57 + n

/-- The four hex digits of `n % 0x10000`, most significant first. -/
def hex4 (n : Nat) : List Nat :=
  [hexDigitChar (n / 4096 % 16), hexDigitChar (n / 256 % 16),
   hexDigitChar (n / 16 % 16), hexDigitChar (n % 16)]

/-- One character of a string, JSON-escaped per `json.encoder`'s
`py_encode_basestring_ascii`: `"` and `\` and the five short escapes first,
then code points in `0x20`–`0x7E` verbatim, everything else as `\uXXXX`
(a surrogate pair for code points above `0xFFFF`). -/
def escapeChar (c : Nat) : List Nat :=
  if c = 0x22 then [0x5C, 0x22]
  else if c = 0x5C then [0x5C, 0x5C]
  else if c = 0x08 then [0x5C, 0x62]
  else if c = 0x09 then [0x5C, 0x74]
  else if c = 0x0A then [0x5C, 0x6E]
  else if c = 0x0C then [0x5C, 0x66]
  else if c = 0x0D then [0x5C, 0x72]
  else if 0x20 ≤ c ∧ c ≤ 0x7E then [c]
  else if c < 0x10000 then 0x5C :: 0x75 :: hex4 c
  else (0x5C :: 0x75 :: hex4 (0xD800 + (c - 0x10000) / 0x400))
       ++ (0x5C :: 0x75 :: hex4 (0xDC00 + (c - 0x10000) % 0x400))

/-- The escaped body of a string (no quotes). -/
def encStr (s : List Nat) : List Nat :=
  (s.map escapeChar).flatten

/-- A JSON string literal: quote, escaped body, quote. -/
def dumpsString (s : List Nat) : List Nat :=
  0x22 :: encStr s ++ [0x22]

/-- The comma-separated items of a JSON array, with `json.dumps`'s default
item separator `", "`. -/
def encItems : List (List Nat) → List Nat
  | [] => []
  | [s] => dumpsString s
  | s :: rest => dumpsString s ++ 0x2C :: 0x20 :: encItems rest

/-- `json.dumps` of a list of strings: `[` items `]`. -/
def json_dumps_tags (tags : List (List Nat)) : List Nat :=
  0x5B :: encItems tags ++ [0x5D]

/-! ### Tag codec: CPython `json.loads` for an array of strings -/

/-- Value of a hex digit code point, upper- or lowercase (the decoder accepts
both, as CPython's `_decode_uXXXX` does via `int(s, 16)`). -/
def hexDigitVal (c : Nat) : Option Nat :=
  if 0x30 ≤ c ∧ c ≤ 0x39 then some (c - 0x30)
  else if 0x61 ≤ c ∧ c ≤ 0x66 then some (c - 0x57)
  else if 0x41 ≤ c ∧ c ≤ 0x46 then some (c - 0x37)
  else none

/-- Four hex digits combined into a code unit, or `none` on a non-hex digit. -/
def readHex4 (a b c d : Nat) : Option Nat :=
  match hexDigitVal a, hexDigitVal b, hexDigitVal c, hexDigitVal d with
  | some va, some vb, some vc, some vd =>
      some (((va * 16 + vb) * 16 + vc) * 16 + vd)
  | _, _, _, _ => none

/-- The two-character escapes accepted by `json.decoder.BACKSLASH`. -/
def simpleEscape (e : Nat) : Option Nat :=
  if e = 0x22 then some 0x22
  else if e = 0x5C then some 0x5C
  else if e = 0x2F then some 0x2F
  else if e = 0x62 then some 0x08
  else if e = 0x66 then some 0x0C
  else if e = 0x6E then some 0x0A
  else if e = 0x72 then some 0x0D
  else if e = 0x74 then some 0x09
  else none

/-- Escape handling of `json.decoder.scanstring` after a backslash: `\uXXXX`
(four hex digits) yields its code unit, a high surrogate immediately followed
by a low surrogate escape combines into one code point while any other
following input keeps the lone surrogate, and the two-character escapes go
through `simpleEscape`. Returns the decoded code point and the unconsumed
remainder, `none` on a malformed escape. -/
def parseEsc : List Nat → Option (Nat × List Nat)
  | [] => none
  | e :: rest2 =>
    if e = 0x75 then
      match rest2 with
      | a :: b :: c2 :: d :: rest3 =>
        match readHex4 a b c2 d with
        | none => none
        | some n =>
          if 0xD800 ≤ n ∧ n ≤ 0xDBFF then
            match rest3 with
            | e1 :: e2 :: a2 :: b2 :: c3 :: d2 :: rest4 =>
              if e1 = 0x5C ∧ e2 = 0x75 then
                match readHex4 a2 b2 c3 d2 with
                | none => none
                | some m =>
                  if 0xDC00 ≤ m ∧ m ≤ 0xDFFF then
                    some (0x10000 + (n - 0xD800) * 0x400 + (m - 0xDC00), rest4)
                  else some (n, rest3)
              else some (n, rest3)
            | _ => some (n, rest3)
          else some (n, rest3)
      | _ => none
    else
      match simpleEscape e with
      | none => none
      | some ch => some (ch, rest2)

/-- String-body scanner after the opening quote, as `json.decoder.scanstring`
in strict mode: a quote ends the string; a backslash hands over to
`parseEsc`; raw control characters below `0x20` are rejected; any other code
point is literal. Returns the decoded string and the unconsumed remainder.
`fuel` makes the recursion structural; every step consumes at least one
input code point, so callers pass the input length. -/
def parseStr (fuel : Nat) (l : List Nat) : Option (List Nat × List Nat) :=
  match fuel with
  | 0 => none
  | fuel + 1 =>
    match l with
    | [] => none
    | c :: rest =>
      if c = 0x22 then some ([], rest)
      else if c = 0x5C then
        match parseEsc rest with
        | none => none
        | some (ch, rest2) =>
          match parseStr fuel rest2 with
          | some (s, rem) => some (ch :: s, rem)
          | none => none
      else if c < 0x20 then none
      else
        match parseStr fuel rest with
        | some (s, rem) => some (c :: s, rem)
        | none => none

/-- JSON whitespace skipping (`json.decoder.WHITESPACE`). -/
def skipWs : List Nat → List Nat
  | [] => []
  | c :: rest =>
    if c = 0x20 ∨ c = 0x09 ∨ c = 0x0A ∨ c = 0x0D then skipWs rest
    else c :: rest

/-- The item loop of `json.decoder.JSONArray`, restricted to string values
(the only values the note store ever writes): a string, then whitespace, then
either `]` (done) or `,` and whitespace before the next item. `fuel` makes
the recursion structural; callers pass the input length, which suffices since
every iteration consumes at least the item's quotes. -/
def parseItems (fuel : Nat) (s : List Nat) : Option (List (List Nat) × List Nat) :=
  match fuel with
  | 0 => none
  | fuel + 1 =>
    match s with
    | 0x22 :: rest =>
      match parseStr (rest.length + 1) rest with
      | none => none
      | some (str, rem) =>
        match skipWs rem with
        | 0x5D :: rem2 => some ([str], rem2)
        | 0x2C :: rem2 =>
          match parseItems fuel (skipWs rem2) with
          | some (strs, rem3) => some (str :: strs, rem3)
          | none => none
        | _ => none
    | _ => none

/-- `json.loads` restricted to a top-level array of strings: leading
whitespace, `[`, the items (possibly none), and nothing but trailing
whitespace after the closing `]`. -/
def json_loads_tags (s : List Nat) : Option (List (List Nat)) :=
  match skipWs s with
  | 0x5B :: rest =>
    match skipWs rest with
    | 0x5D :: rem => if skipWs rem = [] then some [] else none
    | rest1 =>
      match parseItems (rest1.length + 1) rest1 with
      | some (strs, rem) => if skipWs rem = [] then some strs else none
      | none => none
  | _ => none

/-- The tag read path of `get_notes`/`get_shared_notes`
(`routers/notes.py:21`): `json.loads(note.tags) if note.tags else []`, with
the `except:` fallback to `[]` on a decode failure. -/
def loadTags (stored : List Nat) : List (List Nat) :=
  if stored = [] then []
  else
    match json_loads_tags stored with
    | some tags => tags
    | none => []

/-- A valid code point of a Python string that can leave the process: within
the Unicode range and not a lone surrogate. -/
def ValidChar (c : Nat) : Prop :=
  c < 0x110000 ∧ (c < 0xD800 ∨ 0xDFFF < c)

instance (c : Nat) : Decidable (ValidChar c) := by
  unfold ValidChar; infer_instance

/-- Every code point of every tag is valid. -/
def ValidTags (tags : List (List Nat)) : Prop :=
  ∀ t ∈ tags, ∀ c ∈ t, ValidChar c

instance (tags : List (List Nat)) : Decidable (ValidTags tags) := by
  unfold ValidTags; infer_instance

/-! ### Data model (`models.py`) and database state

Rows as records; `can_edit` is an integer column that the handlers only ever
write as `0`/`1` (`1 if share_req.can_edit else 0`), filter with
`can_edit == 1` and read with `bool(...)`, so it is modelled as `Bool`.
Timestamps are abstract instants (`Nat`). `HTTPException(status, detail)`
is `ApiError.http`; a Python `AttributeError` on a missing ORM attribute is
`ApiError.attributeError`. Detail strings are reproduced from the source up
to ASCII apostrophes and quotes, which are omitted. -/

structure UserRec where
  id : Nat
  email : String
  username : String
  name : Option String
  hashed_password : Option String
  google_id : Option String
  auth_provider : String
deriving Repr, DecidableEq

structure NoteRec where
  id : Nat
  title : String
  content : String
  tags : List Nat
  created_at : Nat
  updated_at : Nat
  user_id : Nat
deriving Repr, DecidableEq

structure ShareRec where
  id : Nat
  note_id : Nat
  shared_by_user_id : Nat
  shared_with_user_id : Nat
  shared_at : Nat
  can_edit : Bool
deriving Repr, DecidableEq

structure DBState where
  users : List UserRec
  notes : List NoteRec
  shares : List ShareRec
  nextUserId : Nat
  nextNoteId : Nat
  nextShareId : Nat
deriving Repr, DecidableEq

inductive ApiError where
  | http (status : Nat) (detail : String)
  | attributeError (objName attrName : String)
deriving Repr, DecidableEq

/-! ### Notes endpoints (`routers/notes.py`; `main.py` has the same bodies
after its token-to-user resolution, which is abstracted into the already
resolved `user` argument) -/

structure NoteCreateReq where
  title : String
  content : String
  tags : List (List Nat)
deriving Repr, DecidableEq

structure NoteUpdateReq where
  title : Option String
  content : Option String
  tags : Option (List (List Nat))
deriving Repr, DecidableEq

structure ShareNoteReq where
  username : String
  can_edit : Bool
deriving Repr, DecidableEq

/-- The mutation block of `update_note` (`routers/notes.py:119`–`127`): each
field present in the request overwrites the row, absent fields are left
alone, `updated_at` is set to the current instant; tags are stored through
`json.dumps`. -/
def applyNoteUpdate (req : NoteUpdateReq) (now : Nat) (n : NoteRec) : NoteRec :=
  { n with
    title := req.title.getD n.title
    content := req.content.getD n.content
    tags := match req.tags with
            | some ts => json_dumps_tags ts
            | none => n.tags
    updated_at := now }

/-- `create_note` (`routers/notes.py:73`–`90`): inserts a row owned by the
caller with the tags JSON-encoded; the handler replies with a message
carrying the fresh id, modelled by returning the inserted row. -/
def create_note (req : NoteCreateReq) (user : UserRec) (now : Nat) (db : DBState) :
    Except ApiError NoteRec × DBState :=
  let n : NoteRec :=
    ⟨db.nextNoteId, req.title, req.content, json_dumps_tags req.tags, now, now, user.id⟩
  (.ok n, { db with notes := db.notes ++ [n], nextNoteId := db.nextNoteId + 1 })

/-- `update_note` (`routers/notes.py:92`–`130`): first look for the row as
owner (`id == note_id and user_id == current_user.id`); failing that, look
for a share row granting the caller edit permission and follow its `note`
relationship; with no such share, 403. A share whose `note_id` has no note
row would make `shared.note` be `None` and the first field assignment raise
(`attributeError`); foreign keys rule this out in a live database. -/
def update_note (noteId : Nat) (req : NoteUpdateReq) (user : UserRec) (now : Nat)
    (db : DBState) : Except ApiError String × DBState :=
  match db.notes.find? (fun n => n.id == noteId && n.user_id == user.id) with
  | some n =>
    (.ok "Note updated successfully",
     { db with notes := db.notes.map (fun m =>
         if m.id == n.id then applyNoteUpdate req now n else m) })
  | none =>
    match db.shares.find? (fun s =>
        s.note_id == noteId && s.shared_with_user_id == user.id && s.can_edit) with
    | none => (.error (.http 403 "You dont have permission to edit this note"), db)
    | some sh =>
      match db.notes.find? (fun n => n.id == sh.note_id) with
      | none => (.error (.attributeError "NoneType" "title"), db)
      | some n =>
        (.ok "Note updated successfully",
         { db with notes := db.notes.map (fun m =>
             if m.id == n.id then applyNoteUpdate req now n else m) })

/-- `delete_note` (`routers/notes.py:132`–`150`): only a row matching both
the id and the caller as owner is deleted (404 otherwise); SQLAlchemy's
`cascade="all, delete-orphan"` on `shared_instances` removes the note's
share rows with it. -/
def delete_note (noteId : Nat) (user : UserRec) (db : DBState) :
    Except ApiError String × DBState :=
  match db.notes.find? (fun n => n.id == noteId && n.user_id == user.id) with
  | none => (.error (.http 404 "Note not found or you dont own it"), db)
  | some n =>
    (.ok "Note deleted successfully",
     { db with notes := db.notes.filter (fun m => !(m.id == n.id)),
               shares := db.shares.filter (fun s => !(s.note_id == n.id)) })

/-- `share_note` (`routers/notes.py:152`–`203`): owner check (404), grantee
lookup by username (404), self-share check (400); then either the existing
`(note, grantee)` share row has its permission overwritten, or a fresh row
is inserted. -/
def share_note (noteId : Nat) (req : ShareNoteReq) (user : UserRec) (now : Nat)
    (db : DBState) : Except ApiError String × DBState :=
  match db.notes.find? (fun n => n.id == noteId && n.user_id == user.id) with
  | none => (.error (.http 404 "Note not found or you dont own it"), db)
  | some _ =>
    match db.users.find? (fun u => u.username == req.username) with
    | none =>
      (.error (.http 404 ("User " ++ req.username ++ " not found in the system")), db)
    | some grantee =>
      if grantee.id == user.id then
        (.error (.http 400 "You cannot share a note with yourself"), db)
      else
        match db.shares.find? (fun s =>
            s.note_id == noteId && s.shared_with_user_id == grantee.id) with
        | some ex =>
          (.ok "Share permissions updated",
           { db with shares := db.shares.map (fun s =>
               if s.id == ex.id then { s with can_edit := req.can_edit } else s) })
        | none =>
          (.ok "Note shared successfully",
           { db with
               shares := db.shares ++
                 [⟨db.nextShareId, noteId, user.id, grantee.id, now, req.can_edit⟩],
               nextShareId := db.nextShareId + 1 })

/-! ### Auth endpoints (`routers/auth.py`; the `main.py` bodies are the same
up to the token subject claim, see below) -/

structure RegisterReq where
  email : String
  username : String
  password : String
  name : Option String
deriving Repr, DecidableEq

/-- The session token payload built by `create_access_token`
(`main.py:160`–`164`): the caller's claims (every call site passes exactly a
`sub` claim) plus an `exp` of 24 hours from issuance. The `jwt.encode`
signing step is an external collaborator; the payload is the observable
content. -/
structure TokenPayload where
  sub : String
  exp : Nat
deriving Repr, DecidableEq

def create_access_token (sub : String) (now : Nat) : TokenPayload :=
  ⟨sub, now + 24 * 3600⟩

/-- `register` (`routers/auth.py:13`–`67` and `main.py:196`–`249`, identical
logic): password length bounds, then the email uniqueness check, then the
username uniqueness check, and only then the insert. `hash` abstracts the
bcrypt `get_password_hash` collaborator. Returns the inserted row (the
handler wraps it in a token response). -/
def register (req : RegisterReq) (hash : String → String) (db : DBState) :
    Except ApiError UserRec × DBState :=
  if req.password.length < 6 then
    (.error (.http 400 "Password must be at least 6 characters long"), db)
  else if req.password.length > 72 then
    (.error (.http 400 "Password cannot be longer than 72 characters"), db)
  else
    match db.users.find? (fun u => u.email == req.email) with
    | some _ => (.error (.http 400 "Email already registered"), db)
    | none =>
      match db.users.find? (fun u => u.username == req.username) with
      | some _ => (.error (.http 400 "Username already taken"), db)
      | none =>
        let nu : UserRec :=
          ⟨db.nextUserId, req.email, req.username, some (req.name.getD req.username),
           some (hash req.password), none, "local"⟩
        (.ok nu, { db with users := db.users ++ [nu], nextUserId := db.nextUserId + 1 })

/-- The candidate-user lookup of `login`: email or username equals the
identifier. -/
def find_login_user (identifier : String) (db : DBState) : Option UserRec :=
  db.users.find? (fun u => u.email == identifier || u.username == identifier)

/-- `login` (`routers/auth.py:69`–`104` and `main.py:251`–`285`, identical
logic up to the token): no candidate is 401; a Google-provider account is
refused with 400 before any password check; otherwise the password is
checked against the stored hash by the bcrypt collaborator `vp`
(`verify_password`), a mismatch being 401. A local account with no stored
hash would make `verify_password` raise (surfaced as a 500); the
registration invariant rules such rows out. -/
def login (identifier password : String) (vp : String → String → Bool) (db : DBState) :
    Except ApiError UserRec :=
  match find_login_user identifier db with
  | none => .error (.http 401 "Invalid credentials")
  | some u =>
    if u.auth_provider == "google" then
      .error (.http 400 "This account uses Google sign-in. Please use Sign in with Google button.")
    else
      match u.hashed_password with
      | none => .error (.http 500 "Internal Server Error")
      | some h =>
        if vp password h then .ok u else .error (.http 401 "Invalid credentials")

/-- The token issued by `routers/auth.py:93`: subject claim
`str(user.id)`. -/
def login_router (identifier password : String) (vp : String → String → Bool)
    (now : Nat) (db : DBState) : Except ApiError TokenPayload :=
  (login identifier password vp db).map (fun u => create_access_token (toString u.id) now)

/-- The token issued by `main.py:274`: subject claim `db_user.email`. -/
def login_main (identifier password : String) (vp : String → String → Bool)
    (now : Nat) (db : DBState) : Except ApiError TokenPayload :=
  (login identifier password vp db).map (fun u => create_access_token u.email now)

/-! ### The standalone share router (`routers/share.py`)

This variant reads `note.owner_id` although `models.Note` defines the owner
column as `user_id`, and builds queries over `models.SharedNote.shared_with_id`
although the column is `shared_with_user_id`. Python resolves such reads at
run time: an instance or class attribute that does not exist raises
`AttributeError`. Attribute reads are therefore embedded explicitly, with the
attribute tables taken from `models.py`. -/

/-- Numeric instance attributes of a `Note` row per `models.py:22`–`34`
(`id`, `user_id` are its integer columns an owner check could read); any
other name raises `AttributeError`. -/
def noteAttrNat (n : NoteRec) (attr : String) : Except ApiError Nat :=
  if attr == "id" then .ok n.id
  else if attr == "user_id" then .ok n.user_id
  else .error (.attributeError "Note" attr)

/-- Class attributes of `SharedNote` per `models.py:36`–`47`: its columns
and relationships. -/
def sharedNoteColumns : List String :=
  ["id", "note_id", "shared_by_user_id", "shared_with_user_id", "shared_at",
   "can_edit", "note", "shared_with_user"]

/-- Building a query filter reads the column as a class attribute; a name
outside `sharedNoteColumns` raises `AttributeError`. -/
def sharedNoteClassAttr (attr : String) : Except ApiError Unit :=
  if sharedNoteColumns.contains attr then .ok () else .error (.attributeError "SharedNote" attr)

namespace SharePy

/-- `share_note` (`routers/share.py:11`–`59`): note lookup by id alone, then
the owner check reads `note.owner_id`; past it, grantee lookup by email,
self-share check, and a share query filtered on
`SharedNote.shared_with_id`. The final branch is unreachable: the model
cannot continue past a missing attribute, and `shared_with_id` is not a
column. -/
def share_note (noteId : Nat) (email : String) (user : UserRec) (db : DBState) :
    Except ApiError String × DBState :=
  match db.notes.find? (fun n => n.id == noteId) with
  | none => (.error (.http 404 "Note not found"), db)
  | some note =>
    match noteAttrNat note "owner_id" with
    | .error e => (.error e, db)
    | .ok ownerId =>
      if !(ownerId == user.id) then
        (.error (.http 403 "Only the owner can share this note"), db)
      else
        match db.users.find? (fun u => u.email == email) with
        | none => (.error (.http 404 "User not found"), db)
        | some target =>
          if target.id == user.id then
            (.error (.http 400 "Cannot share note with yourself"), db)
          else
            match sharedNoteClassAttr "shared_with_id" with
            | .error e => (.error e, db)
            | .ok _ => (.error (.http 500 "Internal Server Error"), db)

/-- `get_note_shares` (`routers/share.py:61`–`78`): note lookup by id, then
the owner check reads `note.owner_id`; past it, the note's share rows are
returned. -/
def get_note_shares (noteId : Nat) (user : UserRec) (db : DBState) :
    Except ApiError (List ShareRec) :=
  match db.notes.find? (fun n => n.id == noteId) with
  | none => .error (.http 404 "Note not found")
  | some note =>
    match noteAttrNat note "owner_id" with
    | .error e => .error e
    | .ok ownerId =>
      if !(ownerId == user.id) then
        .error (.http 403 "Only the owner can view sharing information")
      else .ok (db.shares.filter (fun s => s.note_id == noteId))

/-- `unshare_note` (`routers/share.py:80`–`107`): note lookup by id, then the
owner check reads `note.owner_id`; past it, a share query filtered on
`SharedNote.shared_with_id`. As in `share_note`, the final branch is
unreachable. -/
def unshare_note (noteId _userId : Nat) (user : UserRec) (db : DBState) :
    Except ApiError String × DBState :=
  match db.notes.find? (fun n => n.id == noteId) with
  | none => (.error (.http 404 "Note not found"), db)
  | some note =>
    match noteAttrNat note "owner_id" with
    | .error e => (.error e, db)
    | .ok ownerId =>
      if !(ownerId == user.id) then
        (.error (.http 403 "Only the owner can unshare this note"), db)
      else
        match sharedNoteClassAttr "shared_with_id" with
        | .error e => (.error e, db)
        | .ok _ => (.error (.http 500 "Internal Server Error"), db)

end SharePy

/-! ### The error taxonomy of the specification, as HTTP statuses -/

def FORBIDDEN : Nat := 403
def NOT_FOUND : Nat := 404
def UNAUTHORIZED : Nat := 401
def INVALID_ARGUMENT : Nat := 400
def CONFLICT : Nat := 409

/-- The share rows of one `(note, grantee)` pair, the subject of the upsert
invariant. -/
def pairShares (shares : List ShareRec) (noteId gid : Nat) : List ShareRec :=
  shares.filter (fun s => s.note_id == noteId && s.shared_with_user_id == gid)

/-! ### Sample rows used by concrete witnesses and counterexamples -/

def alice : UserRec := ⟨1, "alice@example.com", "alice", some "Alice", some "HA", none, "local"⟩

def bob : UserRec := ⟨2, "bob@example.com", "bob", some "Bob", some "HB", none, "local"⟩

def gina : UserRec := ⟨3, "gina@example.com", "gina", some "Gina", none, some "gid", "google"⟩

def note1 : NoteRec := ⟨1, "Groceries", "milk,eggs", json_dumps_tags [], 0, 0, 1⟩

def shareBobEdit : ShareRec := ⟨1, 1, 1, 2, 0, true⟩

def db0 : DBState := ⟨[alice, bob, gina], [note1], [shareBobEdit], 4, 2, 2⟩

/-! ### Codec round-trip lemmas -/

/-- Reading back an emitted hex digit recovers its value. -/
theorem hexDigitVal_hexDigitChar (n : Nat) (h : n < 16) :
    hexDigitVal (hexDigitChar n) = some n := by
  interval_cases n <;> decide

/-- Reading back the four emitted hex digits of `n < 0x10000` recovers `n`. -/
theorem readHex4_hex4 (n : Nat) (h : n < 0x10000) :
    readHex4 (hexDigitChar (n / 4096 % 16)) (hexDigitChar (n / 256 % 16))
      (hexDigitChar (n / 16 % 16)) (hexDigitChar (n % 16)) = some n := by
  have h16 : ∀ k : Nat, k % 16 < 16 := fun k => Nat.mod_lt _ (by omega)
  rw [readHex4, hexDigitVal_hexDigitChar _ (h16 _), hexDigitVal_hexDigitChar _ (h16 _),
      hexDigitVal_hexDigitChar _ (h16 _), hexDigitVal_hexDigitChar _ (h16 _)]
  have : ((n / 4096 % 16 * 16 + n / 256 % 16) * 16 + n / 16 % 16) * 16 + n % 16 = n := by
    omega
  simp [this]


/-- A two-character escape decodes through `simpleEscape` and consumes two
input code points (the backslash having been consumed by the caller). -/
theorem parseEsc_simple (e ch : Nat) (rest : List Nat) (he : ¬e = 0x75)
    (hs : simpleEscape e = some ch) :
    parseEsc (e :: rest) = some (ch, rest) := by
  simp only [parseEsc, if_neg he, hs]

/-- A `\uXXXX` escape whose code unit is not a high surrogate decodes to that
code unit. -/
theorem parseEsc_u (d1 d2 d3 d4 n : Nat) (rest : List Nat)
    (hr : readHex4 d1 d2 d3 d4 = some n) (hns : ¬(0xD800 ≤ n ∧ n ≤ 0xDBFF)) :
    parseEsc (0x75 :: d1 :: d2 :: d3 :: d4 :: rest) = some (n, rest) := by
  simp only [parseEsc, if_pos rfl, hr, if_neg hns]
  rfl

/-- A high surrogate escape followed by a low surrogate escape decodes to the
combined supplementary code point. -/
theorem parseEsc_pair (d1 d2 d3 d4 e1 e2 e3 e4 n m : Nat) (rest : List Nat)
    (hr1 : readHex4 d1 d2 d3 d4 = some n) (hr2 : readHex4 e1 e2 e3 e4 = some m)
    (hn : 0xD800 ≤ n ∧ n ≤ 0xDBFF) (hm : 0xDC00 ≤ m ∧ m ≤ 0xDFFF) :
    parseEsc (0x75 :: d1 :: d2 :: d3 :: d4 :: 0x5C :: 0x75 :: e1 :: e2 :: e3 :: e4 :: rest)
      = some (0x10000 + (n - 0xD800) * 0x400 + (m - 0xDC00), rest) := by
  simp only [parseEsc, if_pos rfl, hr1, if_pos hn, hr2, if_pos hm]
  simp

/-- A quote closes the string at once. -/
theorem parseStr_cons_quote (fuel : Nat) (rest : List Nat) :
    parseStr (fuel + 1) (0x22 :: rest) = some ([], rest) := by
  simp [parseStr]

/-- A backslash hands over to `parseEsc` and the scan continues after the
escape. -/
theorem parseStr_cons_esc (fuel : Nat) (l rest2 : List Nat) (ch : Nat)
    (h : parseEsc l = some (ch, rest2)) :
    parseStr (fuel + 1) (0x5C :: l) =
      match parseStr fuel rest2 with
      | some (s, rem) => some (ch :: s, rem)
      | none => none := by
  simp only [parseStr, h]
  rfl

/-- A literal code point is taken verbatim and the scan continues. -/
theorem parseStr_cons_lit (c fuel : Nat) (rest : List Nat)
    (h1 : ¬c = 0x22) (h2 : ¬c = 0x5C) (h3 : ¬c < 0x20) :
    parseStr (fuel + 1) (c :: rest) =
      match parseStr fuel rest with
      | some (s, rem) => some (c :: s, rem)
      | none => none := by
  simp only [parseStr, if_neg h1, if_neg h2, if_neg h3]

/-- Scanning one escaped character undoes the escaping and scans on: the
scanner consumes `escapeChar c` in one step (one unit of fuel) and prepends
`c` to whatever the rest scans to. -/
theorem parseStr_escapeChar (c : Nat) (hc : ValidChar c) (fuel : Nat) (rest : List Nat) :
    parseStr (fuel + 1) (escapeChar c ++ rest) =
      match parseStr fuel rest with
      | some (s, rem) => some (c :: s, rem)
      | none => none := by
  obtain ⟨hlt, hsur⟩ := hc
  by_cases h1 : c = 0x22
  · subst h1
    rw [show escapeChar 0x22 ++ rest = 0x5C :: 0x22 :: rest from rfl]
    exact parseStr_cons_esc fuel _ rest 0x22 (parseEsc_simple _ _ _ (by decide) rfl)
  by_cases h2 : c = 0x5C
  · subst h2
    rw [show escapeChar 0x5C ++ rest = 0x5C :: 0x5C :: rest from rfl]
    exact parseStr_cons_esc fuel _ rest 0x5C (parseEsc_simple _ _ _ (by decide) rfl)
  by_cases h3 : c = 0x08
  · subst h3
    rw [show escapeChar 0x08 ++ rest = 0x5C :: 0x62 :: rest from rfl]
    exact parseStr_cons_esc fuel _ rest 0x08 (parseEsc_simple _ _ _ (by decide) rfl)
  by_cases h4 : c = 0x09
  · subst h4
    rw [show escapeChar 0x09 ++ rest = 0x5C :: 0x74 :: rest from rfl]
    exact parseStr_cons_esc fuel _ rest 0x09 (parseEsc_simple _ _ _ (by decide) rfl)
  by_cases h5 : c = 0x0A
  · subst h5
    rw [show escapeChar 0x0A ++ rest = 0x5C :: 0x6E :: rest from rfl]
    exact parseStr_cons_esc fuel _ rest 0x0A (parseEsc_simple _ _ _ (by decide) rfl)
  by_cases h6 : c = 0x0C
  · subst h6
    rw [show escapeChar 0x0C ++ rest = 0x5C :: 0x66 :: rest from rfl]
    exact parseStr_cons_esc fuel _ rest 0x0C (parseEsc_simple _ _ _ (by decide) rfl)
  by_cases h7 : c = 0x0D
  · subst h7
    rw [show escapeChar 0x0D ++ rest = 0x5C :: 0x72 :: rest from rfl]
    exact parseStr_cons_esc fuel _ rest 0x0D (parseEsc_simple _ _ _ (by decide) rfl)
  by_cases h8 : 0x20 ≤ c ∧ c ≤ 0x7E
  · have hesc : escapeChar c ++ rest = c :: rest := by
      simp only [escapeChar, if_neg h1, if_neg h2, if_neg h3, if_neg h4, if_neg h5,
        if_neg h6, if_neg h7, if_pos h8, List.cons_append, List.nil_append]
    rw [hesc]
    exact parseStr_cons_lit c fuel rest h1 h2 (by omega)
  by_cases h9 : c < 0x10000
  · have hns : ¬(0xD800 ≤ c ∧ c ≤ 0xDBFF) := by
      rcases hsur with h | h <;> omega
    have hesc : escapeChar c ++ rest =
        0x5C :: 0x75 :: hexDigitChar (c / 4096 % 16) :: hexDigitChar (c / 256 % 16) ::
          hexDigitChar (c / 16 % 16) :: hexDigitChar (c % 16) :: rest := by
      simp only [escapeChar, if_neg h1, if_neg h2, if_neg h3, if_neg h4, if_neg h5,
        if_neg h6, if_neg h7, if_neg h8, if_pos h9, hex4, List.cons_append,
        List.nil_append]
    rw [hesc]
    exact parseStr_cons_esc fuel _ rest c
      (parseEsc_u _ _ _ _ c rest (readHex4_hex4 c h9) hns)
  · have hhi16 : 0xD800 + (c - 0x10000) / 0x400 < 0x10000 := by omega
    have hlo16 : 0xDC00 + (c - 0x10000) % 0x400 < 0x10000 := by
      have := Nat.mod_lt (c - 0x10000) (y := 0x400) (by omega)
      omega
    have hhr : 0xD800 ≤ 0xD800 + (c - 0x10000) / 0x400 ∧
        0xD800 + (c - 0x10000) / 0x400 ≤ 0xDBFF := by omega
    have hlr : 0xDC00 ≤ 0xDC00 + (c - 0x10000) % 0x400 ∧
        0xDC00 + (c - 0x10000) % 0x400 ≤ 0xDFFF := by
      have := Nat.mod_lt (c - 0x10000) (y := 0x400) (by omega)
      omega
    have hesc : escapeChar c ++ rest =
        0x5C :: 0x75 ::
          hexDigitChar ((0xD800 + (c - 0x10000) / 0x400) / 4096 % 16) ::
          hexDigitChar ((0xD800 + (c - 0x10000) / 0x400) / 256 % 16) ::
          hexDigitChar ((0xD800 + (c - 0x10000) / 0x400) / 16 % 16) ::
          hexDigitChar ((0xD800 + (c - 0x10000) / 0x400) % 16) ::
          0x5C :: 0x75 ::
          hexDigitChar ((0xDC00 + (c - 0x10000) % 0x400) / 4096 % 16) ::
          hexDigitChar ((0xDC00 + (c - 0x10000) % 0x400) / 256 % 16) ::
          hexDigitChar ((0xDC00 + (c - 0x10000) % 0x400) / 16 % 16) ::
          hexDigitChar ((0xDC00 + (c - 0x10000) % 0x400) % 16) :: rest := by
      simp only [escapeChar, if_neg h1, if_neg h2, if_neg h3, if_neg h4, if_neg h5,
        if_neg h6, if_neg h7, if_neg h8, if_neg h9, hex4, List.cons_append,
        List.nil_append, List.append_assoc]
    have hpair := parseEsc_pair _ _ _ _ _ _ _ _
      (0xD800 + (c - 0x10000) / 0x400) (0xDC00 + (c - 0x10000) % 0x400) rest
      (readHex4_hex4 _ hhi16) (readHex4_hex4 _ hlo16) hhr hlr
    have harith : 0x10000 + (0xD800 + (c - 0x10000) / 0x400 - 0xD800) * 0x400 +
        (0xDC00 + (c - 0x10000) % 0x400 - 0xDC00) = c := by omega
    rw [harith] at hpair
    rw [hesc]
    exact parseStr_cons_esc fuel _ rest c hpair

/-- The scanner inverts the string-body encoder: scanning the escaped body up
to its closing quote recovers the string and leaves the remainder, for any
fuel beyond the string's length. -/
theorem parseStr_encStr (s : List Nat) (hs : ∀ c ∈ s, ValidChar c) :
    ∀ (rest : List Nat) (fuel : Nat), s.length < fuel →
      parseStr fuel (encStr s ++ 0x22 :: rest) = some (s, rest) := by
  induction s with
  | nil =>
    intro rest fuel hf
    cases fuel with
    | zero => omega
    | succ f => simpa [encStr] using parseStr_cons_quote f rest
  | cons c s ih =>
    intro rest fuel hf
    cases fuel with
    | zero => simp at hf
    | succ f =>
      have hc : ValidChar c := hs c (List.mem_cons_self c s)
      have hrw : encStr (c :: s) ++ 0x22 :: rest =
          escapeChar c ++ (encStr s ++ 0x22 :: rest) := by
        simp [encStr, List.append_assoc]
      rw [hrw, parseStr_escapeChar c hc f _,
          ih (fun x hx => hs x (List.mem_cons_of_mem c hx)) rest f (by simp at hf; omega)]

/-- Escaping never shortens: at least one code point per character. -/
theorem length_le_encStr (s : List Nat) : s.length ≤ (encStr s).length := by
  induction s with
  | nil => simp [encStr]
  | cons c s ih =>
    have h1 : 1 ≤ (escapeChar c).length := by
      unfold escapeChar
      split_ifs <;> simp [hex4]
    simp only [encStr, List.map_cons, List.flatten_cons, List.length_append,
      List.length_cons] at *
    omega

/-- The encoded items of a nonempty tag list start with a quote. -/
theorem encItems_cons_eq (t : List Nat) (ts : List (List Nat)) :
    ∃ l, encItems (t :: ts) = 0x22 :: l := by
  cases ts <;> simp [encItems, dumpsString]

/-- Whitespace is dropped by `skipWs`. -/
theorem skipWs_ws_cons (c : Nat) (l : List Nat)
    (h : c = 0x20 ∨ c = 0x09 ∨ c = 0x0A ∨ c = 0x0D) :
    skipWs (c :: l) = skipWs l := by
  simp [skipWs, h]

/-- A non-whitespace head stops `skipWs`. -/
theorem skipWs_not_ws_cons (c : Nat) (l : List Nat)
    (h : ¬(c = 0x20 ∨ c = 0x09 ∨ c = 0x0A ∨ c = 0x0D)) :
    skipWs (c :: l) = c :: l := by
  simp [skipWs, h]

/-- Item-loop step, closing case: the scanned string is followed by the
closing bracket. -/
theorem parseItems_close (fuel : Nat) (rest rem rem2 str : List Nat)
    (h : parseStr (rest.length + 1) rest = some (str, rem))
    (h2 : skipWs rem = 0x5D :: rem2) :
    parseItems (fuel + 1) (0x22 :: rest) = some ([str], rem2) := by
  simp only [parseItems, h, h2]

/-- Item-loop step, comma case: the scanned string is followed by a comma and
the loop continues on the rest. -/
theorem parseItems_comma (fuel : Nat) (rest rem rem2 str : List Nat)
    (h : parseStr (rest.length + 1) rest = some (str, rem))
    (h2 : skipWs rem = 0x2C :: rem2) :
    parseItems (fuel + 1) (0x22 :: rest) =
      match parseItems fuel (skipWs rem2) with
      | some (strs, rem3) => some (str :: strs, rem3)
      | none => none := by
  simp only [parseItems, h, h2]

/-- The item loop inverts the items encoder: parsing the encoded items of a
nonempty valid tag list followed by the closing bracket recovers the list and
consumes everything, for any fuel at or beyond the number of items. -/
theorem parseItems_encItems (ts : List (List Nat)) :
    ts ≠ [] → ValidTags ts →
    ∀ fuel, ts.length ≤ fuel → parseItems fuel (encItems ts ++ [0x5D]) = some (ts, []) := by
  induction ts with
  | nil => intro h; exact absurd rfl h
  | cons t ts ih =>
    intro _ hv fuel hf
    cases fuel with
    | zero => simp at hf
    | succ f =>
      have hvt : ∀ c ∈ t, ValidChar c := hv t (List.mem_cons_self t ts)
      cases ts with
      | nil =>
        have hrw : encItems [t] ++ [0x5D] = 0x22 :: (encStr t ++ 0x22 :: [0x5D]) := by
          simp [encItems, dumpsString]
        rw [hrw]
        have hlen : t.length < (encStr t ++ 0x22 :: [0x5D]).length + 1 := by
          have := length_le_encStr t
          simp only [List.length_append, List.length_cons]
          omega
        exact parseItems_close f _ _ _ _ (parseStr_encStr t hvt _ _ hlen)
          (skipWs_not_ws_cons 0x5D _ (by omega))
      | cons t2 ts2 =>
        have hrw : encItems (t :: t2 :: ts2) ++ [0x5D] =
            0x22 :: (encStr t ++ 0x22 :: (0x2C :: 0x20 :: (encItems (t2 :: ts2) ++ [0x5D]))) := by
          simp [encItems, dumpsString, List.append_assoc]
        rw [hrw]
        have hlen : t.length <
            (encStr t ++ 0x22 :: (0x2C :: 0x20 :: (encItems (t2 :: ts2) ++ [0x5D]))).length + 1 := by
          have := length_le_encStr t
          simp only [List.length_append, List.length_cons]
          omega
        rw [parseItems_comma f _ _ _ _ (parseStr_encStr t hvt _ _ hlen)
          (skipWs_not_ws_cons 0x2C _ (by omega))]
        obtain ⟨l2, hl2⟩ := encItems_cons_eq t2 ts2
        have hsk : skipWs (0x20 :: (encItems (t2 :: ts2) ++ [0x5D])) =
            encItems (t2 :: ts2) ++ [0x5D] := by
          rw [skipWs_ws_cons 0x20 _ (by omega), hl2]
          exact skipWs_not_ws_cons 0x22 _ (by omega)
        rw [hsk, ih (by simp) (fun x hx => hv x (List.mem_cons_of_mem t hx)) f (by simp at hf ⊢; omega)]

/-- Encoding never yields fewer code points than there are items. -/
theorem length_le_encItems (ts : List (List Nat)) : ts.length ≤ (encItems ts).length := by
  induction ts with
  | nil => simp [encItems]
  | cons t ts ih =>
    cases ts with
    | nil => simp [encItems, dumpsString]
    | cons t2 ts2 =>
      simp only [encItems, dumpsString, List.length_cons, List.length_append] at *
      omega

/-- Decoding a bracketed item run that starts with a quote and consumes its
whole input yields exactly the parsed items. -/
theorem json_loads_cons (l2 : List Nat) (strs : List (List Nat))
    (hp : parseItems ((0x22 :: l2).length + 1) (0x22 :: l2) = some (strs, [])) :
    json_loads_tags (0x5B :: 0x22 :: l2) = some strs := by
  simp only [json_loads_tags, skipWs_not_ws_cons 0x5B _ (by omega),
    skipWs_not_ws_cons 0x22 _ (by omega), hp]
  rfl

/-- The tag codec round-trip: decoding an encoded valid tag list recovers it
exactly, order and content included. -/
theorem json_loads_dumps (ts : List (List Nat)) (hv : ValidTags ts) :
    json_loads_tags (json_dumps_tags ts) = some ts := by
  cases ts with
  | nil => rfl
  | cons t ts =>
    obtain ⟨l2, hl2⟩ := encItems_cons_eq t ts
    have hdump : json_dumps_tags (t :: ts) = 0x5B :: 0x22 :: (l2 ++ [0x5D]) := by
      simp [json_dumps_tags, hl2]
    rw [hdump]
    apply json_loads_cons
    have hlen : (t :: ts).length ≤ (0x22 :: (l2 ++ [0x5D])).length + 1 := by
      have := length_le_encItems (t :: ts)
      rw [hl2] at this
      simp only [List.length_cons, List.length_append] at *
      omega
    have hform : encItems (t :: ts) ++ [0x5D] = 0x22 :: (l2 ++ [0x5D]) := by
      simp [hl2]
    have hrun := parseItems_encItems (t :: ts) (by simp) hv
      ((0x22 :: (l2 ++ [0x5D])).length + 1) hlen
    rw [hform] at hrun
    exact hrun

/-- The read path of `get_notes` recovers exactly what `create_note`/
`update_note` stored: the fallback never fires on an encoded valid list. -/
theorem loadTags_dumps (ts : List (List Nat)) (hv : ValidTags ts) :
    loadTags (json_dumps_tags ts) = ts := by
  have hne : ¬json_dumps_tags ts = [] := by simp [json_dumps_tags]
  simp [loadTags, hne, json_loads_dumps ts hv]

/-- A list of length at most one that contains an element is exactly that
singleton. -/
theorem eq_singleton_of_length_le_one {α : Type} {l : List α} {x : α}
    (hlen : l.length ≤ 1) (hx : x ∈ l) : l = [x] := by
  cases l with
  | nil => cases hx
  | cons a t =>
    cases t with
    | nil => simp at hx; simp [hx]
    | cons b t2 => simp at hlen

/-! ### Claim theorems -/

/-- C6: for every valid tag list, creating a note with it stores the encoded
tags, and the read path of `get_notes` decodes them back to the identical
ordered list. -/
theorem create_note_tags_round_trip (req : NoteCreateReq) (user : UserRec) (now : Nat)
    (db : DBState) (hv : ValidTags req.tags) :
    ∃ n : NoteRec, (create_note req user now db).1 = .ok n ∧ loadTags n.tags = req.tags :=
  ⟨_, rfl, loadTags_dumps req.tags hv⟩

/-- C6 witness: the round-trip at the spec's own example, tags `a`, `b`, `c`. -/
theorem create_note_tags_round_trip_witness :
    ValidTags [[97], [98], [99]] ∧
    ∃ n : NoteRec,
      (create_note ⟨"Groceries", "milk,eggs", [[97], [98], [99]]⟩ alice 0 db0).1 = .ok n ∧
      loadTags n.tags = [[97], [98], [99]] :=
  ⟨by decide, create_note_tags_round_trip _ _ _ _ (by decide)⟩

/-- C2: deletion succeeds exactly for the owner; any other caller (a grantee
with edit rights included) gets 404 and the state, the note included, is
untouched. -/
theorem delete_note_owner_only (noteId : Nat) (user : UserRec) (db : DBState) :
    ((∃ n ∈ db.notes, n.id = noteId ∧ n.user_id = user.id) ↔
      ∃ m, (delete_note noteId user db).1 = .ok m) ∧
    (¬(∃ n ∈ db.notes, n.id = noteId ∧ n.user_id = user.id) →
      delete_note noteId user db =
        (.error (.http NOT_FOUND "Note not found or you dont own it"), db)) := by
  cases ho : db.notes.find? (fun n => n.id == noteId && n.user_id == user.id) with
  | some n =>
    have hmem := List.mem_of_find?_eq_some ho
    have hp := List.find?_some ho
    simp only [Bool.and_eq_true, beq_iff_eq] at hp
    exact ⟨⟨fun _ => ⟨"Note deleted successfully", by simp [delete_note, ho]⟩,
            fun _ => ⟨n, hmem, hp.1, hp.2⟩⟩,
           fun hna => absurd ⟨n, hmem, hp.1, hp.2⟩ hna⟩
  | none =>
    have hno : ¬∃ n ∈ db.notes, n.id = noteId ∧ n.user_id = user.id := by
      rw [List.find?_eq_none] at ho
      rintro ⟨n, hmem, h1, h2⟩
      exact ho n hmem (by simp [h1, h2])
    refine ⟨⟨fun h => absurd h hno, fun ⟨m, hm⟩ => ?_⟩,
            fun _ => by simp [delete_note, ho, NOT_FOUND]⟩
    simp [delete_note, ho] at hm

/-- C2 witness: `bob`, who holds an edit share on `alice`'s note, cannot
delete it; the call 404s and the state is unchanged. -/
theorem delete_note_owner_only_witness :
    ¬(∃ n ∈ db0.notes, n.id = 1 ∧ n.user_id = bob.id) ∧
    delete_note 1 bob db0 =
      (.error (.http NOT_FOUND "Note not found or you dont own it"), db0) :=
  ⟨by decide, (delete_note_owner_only 1 bob db0).2 (by decide)⟩

/-- C4: on an owned note, a share request whose username resolves to no user
404s, and one whose grantee is the owner is rejected with 400; in both cases
the state, share rows included, is untouched. -/
theorem share_note_bad_grantee (noteId : Nat) (uname : String) (b : Bool) (user : UserRec)
    (now : Nat) (db : DBState)
    (hown : ∃ n ∈ db.notes, n.id = noteId ∧ n.user_id = user.id) :
    (db.users.find? (fun u => u.username == uname) = none →
      share_note noteId ⟨uname, b⟩ user now db =
        (.error (.http NOT_FOUND ("User " ++ uname ++ " not found in the system")), db)) ∧
    (∀ g, db.users.find? (fun u => u.username == uname) = some g → g.id = user.id →
      share_note noteId ⟨uname, b⟩ user now db =
        (.error (.http INVALID_ARGUMENT "You cannot share a note with yourself"), db)) := by
  obtain ⟨n, hmem, h1, h2⟩ := hown
  have hfind : ∃ n0, db.notes.find? (fun x => x.id == noteId && x.user_id == user.id) = some n0 := by
    rw [← Option.isSome_iff_exists, List.find?_isSome]
    exact ⟨n, hmem, by simp [h1, h2]⟩
  obtain ⟨n0, hn0⟩ := hfind
  constructor
  · intro hnone
    simp [share_note, hn0, hnone, NOT_FOUND]
  · intro g hg hid
    simp [share_note, hn0, hg, hid, INVALID_ARGUMENT]

/-- C4 witness: `alice` sharing her note with an unknown username 404s, and
sharing it with herself is rejected with 400; the state is unchanged both
times. -/
theorem share_note_bad_grantee_witness :
    (∃ n ∈ db0.notes, n.id = 1 ∧ n.user_id = alice.id) ∧
    (db0.users.find? (fun u => u.username == "nobody") = none →
      share_note 1 ⟨"nobody", true⟩ alice 7 db0 =
        (.error (.http NOT_FOUND "User nobody not found in the system"), db0)) ∧
    (∀ g, db0.users.find? (fun u => u.username == "alice") = some g → g.id = alice.id →
      share_note 1 ⟨"alice", true⟩ alice 7 db0 =
        (.error (.http INVALID_ARGUMENT "You cannot share a note with yourself"), db0)) :=
  ⟨by decide, (share_note_bad_grantee 1 "nobody" true alice 7 db0 (by decide)).1,
   (share_note_bad_grantee 1 "alice" true alice 7 db0 (by decide)).2⟩

/-- The owner check of the `share.py` handlers reads an attribute `Note` does
not define. -/
theorem noteAttrNat_owner_id (n : NoteRec) :
    noteAttrNat n "owner_id" = .error (.attributeError "Note" "owner_id") := by
  rfl

/-- C10: whenever the note exists, each of the three `share.py` handlers
raises `AttributeError` on `note.owner_id` before reaching any authorization
outcome or share mutation, so they can never succeed on an existing note;
the state is returned untouched. -/
theorem sharePy_always_attribute_error (noteId userId : Nat) (email : String)
    (user : UserRec) (db : DBState) (hex : ∃ n ∈ db.notes, n.id = noteId) :
    SharePy.share_note noteId email user db =
      (.error (.attributeError "Note" "owner_id"), db) ∧
    SharePy.get_note_shares noteId user db = .error (.attributeError "Note" "owner_id") ∧
    SharePy.unshare_note noteId userId user db =
      (.error (.attributeError "Note" "owner_id"), db) := by
  obtain ⟨n, hmem, hid⟩ := hex
  have hfind : ∃ n0, db.notes.find? (fun x => x.id == noteId) = some n0 := by
    rw [← Option.isSome_iff_exists, List.find?_isSome]
    exact ⟨n, hmem, by simp [hid]⟩
  obtain ⟨n0, hn0⟩ := hfind
  refine ⟨?_, ?_, ?_⟩ <;>
    simp [SharePy.share_note, SharePy.get_note_shares, SharePy.unshare_note,
      hn0, noteAttrNat_owner_id]

/-- C10 witness: on the sample database, where note 1 exists, all three
handlers fail with the attribute error and leave the state unchanged. -/
theorem sharePy_always_attribute_error_witness :
    (∃ n ∈ db0.notes, n.id = 1) ∧
    (SharePy.share_note 1 "bob@example.com" alice db0 =
      (.error (.attributeError "Note" "owner_id"), db0) ∧
    SharePy.get_note_shares 1 alice db0 = .error (.attributeError "Note" "owner_id") ∧
    SharePy.unshare_note 1 2 alice db0 =
      (.error (.attributeError "Note" "owner_id"), db0)) :=
  ⟨by decide, sharePy_always_attribute_error 1 2 "bob@example.com" alice db0 (by decide)⟩

/-- C7 counterexample: logging in to `gina`'s external-identity-only account
with a password fails with status 400 (the InvalidArgument status, pointing
at the external sign-in), not 401 Unauthorized as the claim states. -/
theorem login_google_account_is_400 :
    login "gina@example.com" "pw" (fun _ _ => false) db0 =
      .error (.http 400
        "This account uses Google sign-in. Please use Sign in with Google button.") ∧
    (400 : Nat) ≠ UNAUTHORIZED :=
  ⟨rfl, by decide⟩

/-- C7 (amended): an absent user fails with 401; a matching
external-identity-only (Google) account fails with 400, directing the caller
to external sign-in; a present local account whose password does not verify
against the stored hash fails with 401. -/
theorem login_error_cases (identifier password : String) (vp : String → String → Bool)
    (db : DBState) :
    (find_login_user identifier db = none →
      login identifier password vp db = .error (.http UNAUTHORIZED "Invalid credentials")) ∧
    (∀ u, find_login_user identifier db = some u → u.auth_provider = "google" →
      login identifier password vp db = .error (.http INVALID_ARGUMENT
        "This account uses Google sign-in. Please use Sign in with Google button.")) ∧
    (∀ u h, find_login_user identifier db = some u → u.auth_provider ≠ "google" →
      u.hashed_password = some h → vp password h = false →
      login identifier password vp db = .error (.http UNAUTHORIZED "Invalid credentials")) := by
  refine ⟨fun hn => ?_, fun u hu hg => ?_, fun u h hu hg hh hv => ?_⟩
  · simp [login, hn, UNAUTHORIZED]
  · simp [login, hu, hg, INVALID_ARGUMENT]
  · have hgb : (u.auth_provider == "google") = false := by
      simp [hg]
    simp [login, hu, hgb, hh, hv, UNAUTHORIZED]

/-- C7 witness: the three error cases at concrete inputs — unknown
identifier, `gina`'s Google account, and `alice` with a wrong password. -/
theorem login_error_cases_witness :
    (find_login_user "nobody" db0 = none →
      login "nobody" "pw" (fun _ _ => false) db0 =
        .error (.http UNAUTHORIZED "Invalid credentials")) ∧
    (∀ u, find_login_user "gina" db0 = some u → u.auth_provider = "google" →
      login "gina" "pw" (fun _ _ => false) db0 = .error (.http INVALID_ARGUMENT
        "This account uses Google sign-in. Please use Sign in with Google button.")) ∧
    (∀ u h, find_login_user "alice" db0 = some u → u.auth_provider ≠ "google" →
      u.hashed_password = some h → (fun _ _ => false : String → String → Bool) "wrong" h = false →
      login "alice" "wrong" (fun _ _ => false) db0 =
        .error (.http UNAUTHORIZED "Invalid credentials")) :=
  ⟨(login_error_cases "nobody" "pw" (fun _ _ => false) db0).1,
   (login_error_cases "gina" "pw" (fun _ _ => false) db0).2.1,
   (login_error_cases "alice" "wrong" (fun _ _ => false) db0).2.2⟩

/-- C8 counterexample: registering a second account under `alice`'s email is
refused with status 400 (Bad Request, the InvalidArgument status), not a
distinct 409 Conflict status; the claim's `Conflict` class does not exist in
the code's statuses. -/
theorem register_duplicate_email_is_400 :
    register ⟨"alice@example.com", "newuser", "secret1", none⟩ (fun p => p) db0 =
      (.error (.http 400 "Email already registered"), db0) ∧
    (400 : Nat) ≠ CONFLICT :=
  ⟨rfl, by decide⟩

/-- C8 (amended): with an acceptable password, a duplicate email is refused
with 400 `Email already registered` (checked first), then a duplicate
username with 400 `Username already taken`; both checks precede the insert,
so the state — the user table included — is unchanged on either failure. -/
theorem register_duplicate_conflicts (req : RegisterReq) (hash : String → String)
    (db : DBState) (hlen : 6 ≤ req.password.length ∧ req.password.length ≤ 72) :
    ((∃ u ∈ db.users, u.email = req.email) →
      register req hash db = (.error (.http 400 "Email already registered"), db)) ∧
    ((¬∃ u ∈ db.users, u.email = req.email) →
      (∃ u ∈ db.users, u.username = req.username) →
      register req hash db = (.error (.http 400 "Username already taken"), db)) := by
  have hl1 : ¬req.password.length < 6 := by omega
  have hl2 : ¬req.password.length > 72 := by omega
  constructor
  · rintro ⟨u, hmem, he⟩
    have : ∃ u0, db.users.find? (fun x => x.email == req.email) = some u0 := by
      rw [← Option.isSome_iff_exists, List.find?_isSome]
      exact ⟨u, hmem, by simp [he]⟩
    obtain ⟨u0, hu0⟩ := this
    simp [register, hl1, hl2, hu0]
  · intro hne hex
    have henone : db.users.find? (fun x => x.email == req.email) = none := by
      rw [List.find?_eq_none]
      intro x hx hbx
      exact hne ⟨x, hx, by simpa using hbx⟩
    obtain ⟨u, hmem, hn⟩ := hex
    have : ∃ u0, db.users.find? (fun x => x.username == req.username) = some u0 := by
      rw [← Option.isSome_iff_exists, List.find?_isSome]
      exact ⟨u, hmem, by simp [hn]⟩
    obtain ⟨u0, hu0⟩ := this
    simp [register, hl1, hl2, henone, hu0]

/-- C8 witness: both failure cases at concrete inputs — `alice`'s email
reused, and a fresh email with `bob`'s username reused. -/
theorem register_duplicate_conflicts_witness :
    ((6 ≤ ("secret1" : String).length ∧ ("secret1" : String).length ≤ 72) ∧
     ((∃ u ∈ db0.users, u.email = "alice@example.com") →
       register ⟨"alice@example.com", "newuser", "secret1", none⟩ (fun p => p) db0 =
         (.error (.http 400 "Email already registered"), db0))) ∧
    ((¬∃ u ∈ db0.users, u.email = "new@example.com") →
      (∃ u ∈ db0.users, u.username = "bob") →
      register ⟨"new@example.com", "bob", "secret1", none⟩ (fun p => p) db0 =
        (.error (.http 400 "Username already taken"), db0)) :=
  ⟨⟨by decide,
    (register_duplicate_conflicts ⟨"alice@example.com", "newuser", "secret1", none⟩
      (fun p => p) db0 (by decide)).1⟩,
   (register_duplicate_conflicts ⟨"new@example.com", "bob", "secret1", none⟩
      (fun p => p) db0 (by decide)).2⟩

/-- C9: the `main.py` endpoints sign the user's mutable email as the token
subject — `alice`'s login token carries `alice@example.com`, not her
immutable id `1` — while the `routers/auth.py` variant signs `str(user.id)`;
both issue the fixed 24-hour expiry of `create_access_token`. -/
theorem login_main_signs_email :
    login_main "alice@example.com" "pw" (fun _ _ => true) 0 db0 =
      .ok ⟨"alice@example.com", 24 * 3600⟩ ∧
    "alice@example.com" ≠ toString alice.id ∧
    login_router "alice@example.com" "pw" (fun _ _ => true) 0 db0 =
      .ok ⟨"1", 24 * 3600⟩ ∧
    create_access_token "1" 0 = ⟨"1", 24 * 3600⟩ :=
  ⟨rfl, by decide, rfl, rfl⟩

/-- C1: under referential integrity of the share rows (every share points at
an existing note, which the database's foreign keys enforce), the update
succeeds exactly when the caller owns the note or holds a share with edit
permission on it; in every other case it fails with 403 Forbidden and the
whole state, the note included, is returned untouched. -/
theorem update_note_authz (noteId : Nat) (req : NoteUpdateReq) (user : UserRec)
    (now : Nat) (db : DBState)
    (hfk : ∀ s ∈ db.shares, ∃ n ∈ db.notes, n.id = s.note_id) :
    (((∃ n ∈ db.notes, n.id = noteId ∧ n.user_id = user.id) ∨
      (∃ s ∈ db.shares, s.note_id = noteId ∧ s.shared_with_user_id = user.id ∧
        s.can_edit = true)) ↔
      ∃ m, (update_note noteId req user now db).1 = .ok m) ∧
    (¬((∃ n ∈ db.notes, n.id = noteId ∧ n.user_id = user.id) ∨
       (∃ s ∈ db.shares, s.note_id = noteId ∧ s.shared_with_user_id = user.id ∧
        s.can_edit = true)) →
      update_note noteId req user now db =
        (.error (.http FORBIDDEN "You dont have permission to edit this note"), db)) := by
  cases ho : db.notes.find? (fun n => n.id == noteId && n.user_id == user.id) with
  | some n =>
    have hmem := List.mem_of_find?_eq_some ho
    have hp := List.find?_some ho
    simp only [Bool.and_eq_true, beq_iff_eq] at hp
    refine ⟨⟨fun _ => ⟨"Note updated successfully", by simp [update_note, ho]⟩,
             fun _ => Or.inl ⟨n, hmem, hp.1, hp.2⟩⟩,
            fun hna => absurd (Or.inl ⟨n, hmem, hp.1, hp.2⟩) hna⟩
  | none =>
    have hno : ¬∃ n ∈ db.notes, n.id = noteId ∧ n.user_id = user.id := by
      rw [List.find?_eq_none] at ho
      rintro ⟨n, hmem, h1, h2⟩
      exact ho n hmem (by simp [h1, h2])
    cases hs : db.shares.find? (fun s =>
        s.note_id == noteId && s.shared_with_user_id == user.id && s.can_edit) with
    | some sh =>
      have hsmem := List.mem_of_find?_eq_some hs
      have hsp := List.find?_some hs
      simp only [Bool.and_eq_true, beq_iff_eq] at hsp
      obtain ⟨⟨hs1, hs2⟩, hs3⟩ := hsp
      obtain ⟨n, hnmem, hnid⟩ := hfk sh hsmem
      have hfind : ∃ m, db.notes.find? (fun x => x.id == sh.note_id) = some m := by
        rw [← Option.isSome_iff_exists, List.find?_isSome]
        exact ⟨n, hnmem, by simp [hnid]⟩
      obtain ⟨m, hm⟩ := hfind
      refine ⟨⟨fun _ => ⟨"Note updated successfully", by simp [update_note, ho, hs, hm]⟩,
               fun _ => Or.inr ⟨sh, hsmem, hs1, hs2, hs3⟩⟩,
              fun hna => absurd (Or.inr ⟨sh, hsmem, hs1, hs2, hs3⟩) hna⟩
    | none =>
      have hnsh : ¬∃ s ∈ db.shares, s.note_id = noteId ∧ s.shared_with_user_id = user.id ∧
          s.can_edit = true := by
        rw [List.find?_eq_none] at hs
        rintro ⟨s, hmem, h1, h2, h3⟩
        exact hs s hmem (by simp [h1, h2, h3])
      refine ⟨⟨fun h => (h.resolve_left hno).elim fun s hs' => absurd ⟨s, hs'⟩ hnsh,
               fun ⟨m, hm⟩ => ?_⟩,
              fun _ => by simp [update_note, ho, hs, FORBIDDEN]⟩
      simp [update_note, ho, hs] at hm

/-- C1 witness: `bob` holds an edit share on note 1, so his update succeeds;
the integrity hypothesis holds on the sample database. -/
theorem update_note_authz_witness :
    (∀ s ∈ db0.shares, ∃ n ∈ db0.notes, n.id = s.note_id) ∧
    (((∃ n ∈ db0.notes, n.id = 1 ∧ n.user_id = bob.id) ∨
      (∃ s ∈ db0.shares, s.note_id = 1 ∧ s.shared_with_user_id = bob.id ∧
        s.can_edit = true)) ↔
      ∃ m, (update_note 1 ⟨some "new", none, none⟩ bob 9 db0).1 = .ok m) :=
  ⟨by decide, (update_note_authz 1 ⟨some "new", none, none⟩ bob 9 db0 (by decide)).1⟩

/-- Replacing the target row in the table keeps the updated row a member and
leaves every other row untouched. -/
theorem mem_update_map (req : NoteUpdateReq) (now : Nat) (n : NoteRec)
    (notes : List NoteRec) (hmem : n ∈ notes) :
    applyNoteUpdate req now n ∈
      notes.map (fun m => if m.id == n.id then applyNoteUpdate req now n else m) ∧
    ∀ m ∈ notes, m.id ≠ n.id →
      m ∈ notes.map (fun m => if m.id == n.id then applyNoteUpdate req now n else m) := by
  constructor
  · have h := List.mem_map_of_mem
      (f := fun m => if m.id == n.id then applyNoteUpdate req now n else m) hmem
    simpa using h
  · intro m hm hne
    have h := List.mem_map_of_mem
      (f := fun m => if m.id == n.id then applyNoteUpdate req now n else m) hm
    have hb : (m.id == n.id) = false := beq_eq_false_iff_ne.mpr hne
    simpa [hb] using h

/-- C5: on every successful update there is a unique affected row: its
title, content and tags take the caller-supplied values where present and
keep the stored ones where absent, its `updated_at` becomes the current
instant, its identity fields (`id`, `user_id`, `created_at`) are unchanged,
and every other note row is carried over untouched. -/
theorem update_note_frame (noteId : Nat) (req : NoteUpdateReq) (user : UserRec)
    (now : Nat) (db : DBState) (msg : String)
    (hok : (update_note noteId req user now db).1 = .ok msg) :
    ∃ t ∈ db.notes, ∃ t' ∈ (update_note noteId req user now db).2.notes,
      t'.id = t.id ∧ t'.user_id = t.user_id ∧ t'.created_at = t.created_at ∧
      t'.updated_at = now ∧
      t'.title = req.title.getD t.title ∧
      t'.content = req.content.getD t.content ∧
      t'.tags = (match req.tags with
                 | some ts => json_dumps_tags ts
                 | none => t.tags) ∧
      ∀ m ∈ db.notes, m.id ≠ t.id → m ∈ (update_note noteId req user now db).2.notes := by
  cases ho : db.notes.find? (fun n => n.id == noteId && n.user_id == user.id) with
  | some n =>
    have hmem := List.mem_of_find?_eq_some ho
    have h2 : (update_note noteId req user now db).2.notes =
        db.notes.map (fun m => if m.id == n.id then applyNoteUpdate req now n else m) := by
      simp [update_note, ho]
    obtain ⟨hin, hframe⟩ := mem_update_map req now n db.notes hmem
    refine ⟨n, hmem, applyNoteUpdate req now n, by rw [h2]; exact hin,
      rfl, rfl, rfl, rfl, rfl, rfl, rfl, ?_⟩
    intro m hm hne
    rw [h2]
    exact hframe m hm hne
  | none =>
    cases hs : db.shares.find? (fun s =>
        s.note_id == noteId && s.shared_with_user_id == user.id && s.can_edit) with
    | none => simp [update_note, ho, hs] at hok
    | some sh =>
      cases hm : db.notes.find? (fun x => x.id == sh.note_id) with
      | none => simp [update_note, ho, hs, hm] at hok
      | some n =>
        have hmem := List.mem_of_find?_eq_some hm
        have h2 : (update_note noteId req user now db).2.notes =
            db.notes.map (fun m => if m.id == n.id then applyNoteUpdate req now n else m) := by
          simp [update_note, ho, hs, hm]
        obtain ⟨hin, hframe⟩ := mem_update_map req now n db.notes hmem
        refine ⟨n, hmem, applyNoteUpdate req now n, by rw [h2]; exact hin,
          rfl, rfl, rfl, rfl, rfl, rfl, rfl, ?_⟩
        intro m hmm hne
        rw [h2]
        exact hframe m hmm hne

/-- C5 witness: `bob`'s partial update of note 1 (title only) succeeds, and
the affected row keeps its identity and untouched fields. -/
theorem update_note_frame_witness :
    ∃ t ∈ db0.notes, ∃ t' ∈ (update_note 1 ⟨some "new", none, none⟩ bob 9 db0).2.notes,
      t'.id = t.id ∧ t'.user_id = t.user_id ∧ t'.created_at = t.created_at ∧
      t'.updated_at = 9 ∧
      t'.title = (some "new").getD t.title ∧
      t'.content = (none : Option String).getD t.content ∧
      t'.tags = (match (none : Option (List (List Nat))) with
                 | some ts => json_dumps_tags ts
                 | none => t.tags) ∧
      ∀ m ∈ db0.notes, m.id ≠ t.id →
        m ∈ (update_note 1 ⟨some "new", none, none⟩ bob 9 db0).2.notes :=
  update_note_frame 1 ⟨some "new", none, none⟩ bob 9 db0 "Note updated successfully" rfl

/-- One successful share call behaves as an upsert: it succeeds, touches
neither notes nor users, leaves exactly one share row for the `(note,
grantee)` pair carrying the requested permission, and preserves the id
uniqueness and id freshness invariants of the share table. -/
theorem share_note_upsert (noteId : Nat) (req : ShareNoteReq) (user g : UserRec)
    (now : Nat) (db : DBState)
    (hown : ∃ n ∈ db.notes, n.id = noteId ∧ n.user_id = user.id)
    (hg : db.users.find? (fun u => u.username == req.username) = some g)
    (hne : g.id ≠ user.id)
    (hids : db.shares.Pairwise (fun a b => a.id ≠ b.id))
    (hfresh : ∀ s ∈ db.shares, s.id < db.nextShareId)
    (hpair : (pairShares db.shares noteId g.id).length ≤ 1) :
    (∃ msg, (share_note noteId req user now db).1 = .ok msg) ∧
    (share_note noteId req user now db).2.notes = db.notes ∧
    (share_note noteId req user now db).2.users = db.users ∧
    (∃ s, pairShares (share_note noteId req user now db).2.shares noteId g.id = [s] ∧
      s.can_edit = req.can_edit) ∧
    (share_note noteId req user now db).2.shares.Pairwise (fun a b => a.id ≠ b.id) ∧
    (∀ s ∈ (share_note noteId req user now db).2.shares,
      s.id < (share_note noteId req user now db).2.nextShareId) := by
  obtain ⟨n, hnmem, hn1, hn2⟩ := hown
  have hfind : ∃ n0, db.notes.find? (fun x => x.id == noteId && x.user_id == user.id) = some n0 := by
    rw [← Option.isSome_iff_exists, List.find?_isSome]
    exact ⟨n, hnmem, by simp [hn1, hn2]⟩
  obtain ⟨n0, hn0⟩ := hfind
  have hgb : (g.id == user.id) = false := beq_eq_false_iff_ne.mpr hne
  cases hex : db.shares.find? (fun s =>
      s.note_id == noteId && s.shared_with_user_id == g.id) with
  | some ex =>
    have hexmem := List.mem_of_find?_eq_some hex
    have hexp := List.find?_some hex
    have h2 : share_note noteId req user now db =
        (.ok "Share permissions updated",
         { db with shares := db.shares.map (fun s =>
             if s.id == ex.id then { s with can_edit := req.can_edit } else s) }) := by
      simp [share_note, hn0, hg, hgb, hex]
    rw [h2]
    have hidf : ∀ s : ShareRec,
        ((fun s => if s.id == ex.id then { s with can_edit := req.can_edit } else s) s).id
          = s.id := by
      intro s
      by_cases h : s.id = ex.id <;> simp [h]
    have hcomm : ((fun s : ShareRec => s.note_id == noteId && s.shared_with_user_id == g.id) ∘
        (fun s => if s.id == ex.id then { s with can_edit := req.can_edit } else s)) =
        (fun s : ShareRec => s.note_id == noteId && s.shared_with_user_id == g.id) := by
      funext s
      by_cases h : s.id = ex.id <;> simp [h]
    have hps : pairShares (db.shares.map (fun s =>
        if s.id == ex.id then { s with can_edit := req.can_edit } else s)) noteId g.id =
        (pairShares db.shares noteId g.id).map (fun s =>
          if s.id == ex.id then { s with can_edit := req.can_edit } else s) := by
      unfold pairShares
      rw [List.filter_map, hcomm]
    have hsingle : pairShares db.shares noteId g.id = [ex] :=
      eq_singleton_of_length_le_one hpair (List.mem_filter.mpr ⟨hexmem, hexp⟩)
    refine ⟨⟨"Share permissions updated", rfl⟩, rfl, rfl, ?_, ?_, ?_⟩
    · refine ⟨{ ex with can_edit := req.can_edit }, ?_, rfl⟩
      rw [hps, hsingle]
      simp
    · rw [List.pairwise_map]
      have : (fun a b : ShareRec =>
          ((fun s => if s.id == ex.id then { s with can_edit := req.can_edit } else s) a).id ≠
          ((fun s => if s.id == ex.id then { s with can_edit := req.can_edit } else s) b).id) =
          (fun a b : ShareRec => a.id ≠ b.id) := by
        funext a b
        rw [hidf a, hidf b]
      rw [this]
      exact hids
    · intro s hs
      obtain ⟨a, ha, rfl⟩ := List.mem_map.mp hs
      rw [hidf a]
      exact hfresh a ha
  | none =>
    have h2 : share_note noteId req user now db =
        (.ok "Note shared successfully",
         { db with
             shares := db.shares ++
               [⟨db.nextShareId, noteId, user.id, g.id, now, req.can_edit⟩],
             nextShareId := db.nextShareId + 1 }) := by
      simp [share_note, hn0, hg, hgb, hex]
    rw [h2]
    have hnil : pairShares db.shares noteId g.id = [] := by
      unfold pairShares
      rw [List.filter_eq_nil_iff]
      rw [List.find?_eq_none] at hex
      exact hex
    refine ⟨⟨"Note shared successfully", rfl⟩, rfl, rfl, ?_, ?_, ?_⟩
    · refine ⟨⟨db.nextShareId, noteId, user.id, g.id, now, req.can_edit⟩, ?_, rfl⟩
      unfold pairShares at *
      rw [List.filter_append, hnil]
      simp
    · rw [List.pairwise_append]
      refine ⟨hids, by simp, ?_⟩
      intro a ha b hb
      simp at hb
      subst hb
      have := hfresh a ha
      simp
      omega
    · intro s hs
      simp at hs
      rcases hs with hs | hs
      · have := hfresh s hs
        simp
        omega
      · subst hs
        simp

/-- C3: under the share-table invariants (unique ids, fresh next id, at most
one row per pair), sharing the same note with the same grantee twice — with
any two permission values — succeeds both times and leaves exactly one share
row for the pair, carrying the second (latest) value; no second row for the
pair is ever created. -/
theorem share_note_idempotent_upsert (noteId : Nat) (uname : String) (b1 b2 : Bool)
    (user g : UserRec) (now1 now2 : Nat) (db : DBState)
    (hown : ∃ n ∈ db.notes, n.id = noteId ∧ n.user_id = user.id)
    (hg : db.users.find? (fun u => u.username == uname) = some g)
    (hne : g.id ≠ user.id)
    (hids : db.shares.Pairwise (fun a b => a.id ≠ b.id))
    (hfresh : ∀ s ∈ db.shares, s.id < db.nextShareId)
    (hpair : (pairShares db.shares noteId g.id).length ≤ 1) :
    (∃ m1, (share_note noteId ⟨uname, b1⟩ user now1 db).1 = .ok m1) ∧
    (∃ m2, (share_note noteId ⟨uname, b2⟩ user now2
      (share_note noteId ⟨uname, b1⟩ user now1 db).2).1 = .ok m2) ∧
    ∃ s, pairShares (share_note noteId ⟨uname, b2⟩ user now2
        (share_note noteId ⟨uname, b1⟩ user now1 db).2).2.shares noteId g.id = [s] ∧
      s.can_edit = b2 := by
  obtain ⟨hok1, hnotes1, husers1, ⟨s1, hs1, _⟩, hids1, hfresh1⟩ :=
    share_note_upsert noteId ⟨uname, b1⟩ user g now1 db hown hg hne hids hfresh hpair
  have hown1 : ∃ n ∈ (share_note noteId ⟨uname, b1⟩ user now1 db).2.notes,
      n.id = noteId ∧ n.user_id = user.id := by
    rw [hnotes1]; exact hown
  have hg1 : (share_note noteId ⟨uname, b1⟩ user now1 db).2.users.find?
      (fun u => u.username == uname) = some g := by
    rw [husers1]; exact hg
  have hpair1 : (pairShares (share_note noteId ⟨uname, b1⟩ user now1 db).2.shares
      noteId g.id).length ≤ 1 := by
    rw [hs1]; simp
  obtain ⟨hok2, _, _, hsingle2, _, _⟩ :=
    share_note_upsert noteId ⟨uname, b2⟩ user g now2
      (share_note noteId ⟨uname, b1⟩ user now1 db).2 hown1 hg1 hne hids1 hfresh1 hpair1
  exact ⟨hok1, hok2, hsingle2⟩

/-- C3 witness: `alice` re-shares note 1 with `bob` (who already holds an
edit share) with `can_edit = false` twice over; exactly one row for the pair
remains and it carries the latest value. -/
theorem share_note_idempotent_upsert_witness :
    (∃ n ∈ db0.notes, n.id = 1 ∧ n.user_id = alice.id) ∧
    ((∃ m1, (share_note 1 ⟨"bob", true⟩ alice 5 db0).1 = .ok m1) ∧
     (∃ m2, (share_note 1 ⟨"bob", false⟩ alice 6
       (share_note 1 ⟨"bob", true⟩ alice 5 db0).2).1 = .ok m2) ∧
     ∃ s, pairShares (share_note 1 ⟨"bob", false⟩ alice 6
         (share_note 1 ⟨"bob", true⟩ alice 5 db0).2).2.shares 1 bob.id = [s] ∧
       s.can_edit = false) :=
  ⟨by decide,
   share_note_idempotent_upsert 1 "bob" true false alice bob 5 6 db0
     (by decide) (by decide) (by decide) (by decide) (by decide) (by decide)⟩
